import Mathlib

/-!
Shallow embedding of the kioku memoization library (src/src/index.ts):
the LRU+TTL eviction store (`LruCache`), the argument key serializer
(`serializeArgument`), the undefined-sentinel marshalling, the memoization
facade (`memoizedCall`), the deferred-result wrapper continuation
(`promiseContinuation`) and the store reconfiguration (`setup`).

Modelling conventions:
  - JS values are the inductive `JsValue`.  Reference values (objects,
    functions, symbols) carry the stable identity-registry id that the
    WeakMap-backed registries (`idForObject`, `idForFunction`,
    `idForSymbol`) assign to them, so the stateful registries become
    pure constructor fields.
  - JS numbers are modelled as integral doubles (`num (i : Int)`) plus the
    two specially serialized values `nan` and `negZero`; the decimal
    rendering of an integral double below 1e21 coincides with `toString`
    on `Int`.
  - `Date.now()` is an explicit `now : Int` argument at every point where
    the source reads the clock.
  - The JS `Map` (insertion ordered, unique keys) is an association list in
    insertion order, oldest first; `Map.prototype.delete` followed by `set`
    appends at the most-recently-used end, as in the source.
  - Machine-level floating point appears once, in `get`'s reposition
    threshold `size > max * 0.9`; it is rendered as the exact integer
    comparison `10 * size > 9 * max` (for the store sizes involved the
    double rounding of `max * 0.9` never crosses an integer boundary).
-/

deriving instance DecidableEq for Except

namespace Kioku

/-- Identity of a deferred (promise) object.  `wrapped p` is the promise of
the async IIFE that `cachePromiseResult` builds around the underlying
promise `p`. -/
inductive PromRef where
  | base (id : Nat)
  | wrapped (p : PromRef)
deriving DecidableEq, Repr

/-- JS values as far as the memoization engine observes them. -/
inductive JsValue where
  | null
  | undef
  | bool (b : Bool)
  | nan
  | negZero
  | num (i : Int)
  | bigint (i : Int)
  | str (s : String)
  | symGlobal (key : String)
  | symLocal (id : Nat) (descr : String)
  | obj (id : Nat)
  | fn (id : Nat)
  | promise (p : PromRef)
  | generator (id : Nat)
  | asyncGenerator (id : Nat)
deriving DecidableEq, Repr

/-- Marshalled cache payload: a JS value or the module-private
`undefinedValue` sentinel symbol. -/
inductive Marshalled where
  | sentinel
  | val (v : JsValue)
deriving DecidableEq, Repr

/-- Source: `marshallUndefined(value) { return value ?? undefinedValue; }`.
The `??` operator replaces both `undefined` and `null` by the sentinel. -/
def marshallUndefined (v : JsValue) : Marshalled :=
  match v with
  | JsValue.null => Marshalled.sentinel
  | JsValue.undef => Marshalled.sentinel
  | _ => Marshalled.val v

/-- Source: `unmarshallUndefined(value) { return value === undefinedValue ?
undefined : value; }`. -/
def unmarshallUndefined (m : Marshalled) : JsValue :=
  match m with
  | Marshalled.sentinel => JsValue.undef
  | Marshalled.val v => v

/-- Source type `CacheEntry`: tagged union over the four result shapes. -/
inductive CacheEntry where
  | value (m : Marshalled)
  | promiseE (p : PromRef)
  | generatorE (id : Nat)
  | asyncGeneratorE (id : Nat)
deriving DecidableEq, Repr

/-- Source type `CacheEntryWrapper<V>`: a stored record with optional
expiry timestamp. -/
structure CacheEntryWrapper where
  value : CacheEntry
  expiresAt : Option Int
deriving DecidableEq, Repr

/-- Source type `Required<CacheConfig>`. -/
structure RequiredCacheConfig where
  max : Int
  ttl : Int
deriving DecidableEq, Repr

/-- Source type `CacheConfig`: both fields optional. -/
structure CacheConfig where
  max : Option Int := none
  ttl : Option Int := none
deriving DecidableEq, Repr

/-- Source: `defaultOptions = { max: 100, ttl: 5 * 60 * 1000 }`. -/
def defaultOptions : RequiredCacheConfig :=
  { max := 100, ttl := 5 * 60 * 1000 }

/-- Source: `{ ...defaultOptions, ...options }` in the LruCache
constructor (a field absent from `options` keeps its default). -/
def mergeDefaults (cfg : CacheConfig) : RequiredCacheConfig :=
  { max := cfg.max.getD defaultOptions.max
    ttl := cfg.ttl.getD defaultOptions.ttl }

/-- Source class `LruCache<string, CacheEntry>`: resolved options plus the
insertion-ordered `Map` of items (oldest first). -/
structure LruCache where
  options : RequiredCacheConfig
  items : List (String × CacheEntryWrapper)
deriving DecidableEq, Repr

/-- Source: `this.hasTtl = this.options.ttl > 0`. -/
def hasTtl (c : LruCache) : Bool :=
  decide (0 < c.options.ttl)

/-- Source `Map.prototype.get` on the items map. -/
def lookupItem (key : String) : List (String × CacheEntryWrapper) → Option CacheEntryWrapper
  | [] => none
  | kv :: rest => if kv.1 = key then some kv.2 else lookupItem key rest

/-- Source `Map.prototype.delete` on the items map (removes the binding for
`key`; on the unique-key lists reachable from the operations this deletes
at most one entry). -/
def eraseItem (key : String) : List (String × CacheEntryWrapper) → List (String × CacheEntryWrapper)
  | [] => []
  | kv :: rest => if kv.1 = key then eraseItem key rest else kv :: eraseItem key rest

/-- Source: `isExpired(entry) { return entry.expiresAt !== undefined &&
entry.expiresAt <= Date.now(); }`. -/
def isExpired (now : Int) (w : CacheEntryWrapper) : Bool :=
  match w.expiresAt with
  | none => false
  | some e => decide (e ≤ now)

/-- Source: `pruneExpired()` — deletes every expired entry while iterating
the map (the `size === 0` early return does not change the result). -/
def pruneExpired (now : Int) (l : List (String × CacheEntryWrapper)) : List (String × CacheEntryWrapper) :=
  l.filter (fun kv => !isExpired now kv.2)

/-- The wrapper built by `set`: `hasTtl ? { value, expiresAt: Date.now() +
ttl } : { value }`. -/
def mkWrapper (c : LruCache) (v : CacheEntry) (now : Int) : CacheEntryWrapper :=
  if hasTtl c then { value := v, expiresAt := some (now + c.options.ttl) }
  else { value := v, expiresAt := none }

/-- Source: `evictOverflow()` — clear everything when `max <= 0`, otherwise
prune expired entries when TTL is enabled and then remove oldest entries
(iteration order, i.e. the front of the list) until size is at most
`max`. -/
def evictOverflow (now : Int) (c : LruCache) : LruCache :=
  if c.options.max ≤ 0 then { c with items := [] }
  else
    let items1 := if hasTtl c then pruneExpired now c.items else c.items
    let toRemove : Int := (items1.length : Int) - c.options.max
    if 0 < toRemove then { c with items := items1.drop toRemove.toNat }
    else { c with items := items1 }

/-- Source: `set(key, value)` — delete any prior binding, insert at the
most-recently-used end with a fresh expiry stamp, then evict overflow. -/
def storeSet (key : String) (v : CacheEntry) (now : Int) (c : LruCache) : LruCache :=
  evictOverflow now { c with items := eraseItem key c.items ++ [(key, mkWrapper c v now)] }

/-- Source: `get(key)` — absent on miss; an expired record is deleted and
reported absent; on a live hit the record is repositioned to the
most-recently-used end only when the map is more than 90% full. -/
def storeGet (key : String) (now : Int) (c : LruCache) : Option CacheEntry × LruCache :=
  match lookupItem key c.items with
  | none => (none, c)
  | some entry =>
    if hasTtl c && isExpired now entry then
      (none, { c with items := eraseItem key c.items })
    else
      if 10 * (c.items.length : Int) > 9 * c.options.max then
        (some entry.value, { c with items := eraseItem key c.items ++ [(key, entry)] })
      else
        (some entry.value, c)

/-- Source: `has(key)` — like `get` but reports only presence and never
repositions. -/
def storeHas (key : String) (now : Int) (c : LruCache) : Bool × LruCache :=
  match lookupItem key c.items with
  | none => (false, c)
  | some entry =>
    if hasTtl c && isExpired now entry then
      (false, { c with items := eraseItem key c.items })
    else
      (true, c)

/-- Source: `delete(key)` — unconditional removal, returning presence. -/
def storeDelete (key : String) (c : LruCache) : Bool × LruCache :=
  ((lookupItem key c.items).isSome, { c with items := eraseItem key c.items })

/-- Source: `clear()`. -/
def storeClear (c : LruCache) : LruCache :=
  { c with items := [] }

/-- Source: the `size` getter — prunes expired entries first when TTL is
enabled, then reports the map size. -/
def storeSize (now : Int) (c : LruCache) : Nat × LruCache :=
  if hasTtl c then
    let pruned := pruneExpired now c.items
    (pruned.length, { c with items := pruned })
  else
    (c.items.length, c)

/-- Source: `entries()` — yields the live `[key, payload]` pairs in order,
deleting expired entries encountered along the way. -/
def storeEntries (now : Int) (c : LruCache) : List (String × CacheEntry) × LruCache :=
  if hasTtl c then
    let live := pruneExpired now c.items
    (live.map (fun kv => (kv.1, kv.2.value)), { c with items := live })
  else
    (c.items.map (fun kv => (kv.1, kv.2.value)), c)

/-- Source: the `LruCache` constructor (fresh empty map, merged options). -/
def mkCache (cfg : CacheConfig) : LruCache :=
  { options := mergeDefaults cfg, items := [] }

/-- A sequence of `set` operations, oldest first. -/
def setAll (ps : List (String × CacheEntry)) (now : Int) (c : LruCache) : LruCache :=
  ps.foldl (fun acc p => storeSet p.1 p.2 now acc) c

/-- Source: `setup(options)` — build a new store from `options`, then
`set` every live entry of the old store into it, in iteration order. -/
def setup (cfg : CacheConfig) (now : Int) (old : LruCache) : LruCache :=
  setAll (storeEntries now old).1 now (mkCache cfg)

/-- Source type `CacheStats`. -/
structure CacheStats where
  size : Nat
  max : Int
deriving DecidableEq, Repr

/-- Source: `getCacheStats()`. -/
def getCacheStats (now : Int) (c : LruCache) : CacheStats × LruCache :=
  ({ size := (storeSize now c).1, max := c.options.max }, (storeSize now c).2)

/-! ## Argument key serialization -/

/-- One character of the JSON string escaping performed by
`JSON.stringify` on a string value. -/
def jsonEscapeChar (c : Char) : List Char :=
  if c = '"' then ['\\', '"']
  else if c = '\\' then ['\\', '\\']
  else if c = '\n' then ['\\', 'n']
  else if c = '\r' then ['\\', 'r']
  else if c = '\t' then ['\\', 't']
  else if c = Char.ofNat 8 then ['\\', 'b']
  else if c = Char.ofNat 12 then ['\\', 'f']
  else if c.toNat < 32 then
    '\\' :: 'u' :: '0' :: '0' :: [Nat.digitChar (c.toNat / 16), Nat.digitChar (c.toNat % 16)]
  else [c]

/-- `JSON.stringify` applied to a string: quote and escape. -/
def jsonStringify (s : String) : String :=
  ⟨'"' :: (s.data.map jsonEscapeChar).flatten ++ ['"']⟩

/-- Source: `serializeArgument(value)`.  Reference values (symbol /
function / object) serialize through their identity-registry id; the three
deferred/iterator shapes are plain objects to the serializer and go through
the object registry. -/
def serializeArgument (v : JsValue) : String :=
  match v with
  | JsValue.null => "null"
  | JsValue.undef => "u"
  | JsValue.bool b => if b then "b:1" else "b:0"
  | JsValue.nan => "n:NaN"
  | JsValue.negZero => "n:-0"
  | JsValue.num i => "n:" ++ toString i
  | JsValue.bigint i => "B:" ++ toString i
  | JsValue.str s =>
    if '|' ∈ s.data ∨ ':' ∈ s.data ∨ 100 < s.length then "s:" ++ jsonStringify s
    else "s:" ++ s
  | JsValue.symGlobal key => "gSymbol:" ++ key
  | JsValue.symLocal id descr => "symbol:" ++ toString id ++ ":" ++ descr
  | JsValue.obj id => "obj:" ++ toString id
  | JsValue.fn id => "fn:" ++ toString id
  | JsValue.promise _ => "obj:promise"
  | JsValue.generator id => "obj:gen" ++ toString id
  | JsValue.asyncGenerator id => "obj:agen" ++ toString id

/-- The primitive argument values named by the serializer claim. -/
def isPrimitiveArg (v : JsValue) : Bool :=
  match v with
  | JsValue.null => true
  | JsValue.undef => true
  | JsValue.bool _ => true
  | JsValue.nan => true
  | JsValue.negZero => true
  | JsValue.num _ => true
  | JsValue.bigint _ => true
  | JsValue.str _ => true
  | _ => false

/-- Source (memoize): zero-argument calls use the bare function id;
otherwise the per-argument encodings are joined with the delimiter and
prefixed by the function id. -/
def makeKey (functionKey : String) (args : List JsValue) : String :=
  if args.isEmpty then functionKey
  else functionKey ++ "|" ++ String.intercalate "|" (args.map serializeArgument)

/-! ## Memoization facade -/

/-- Global mutable state observed by a memoized call: the active store and
the number of times the underlying function has been invoked. -/
structure CallState where
  store : LruCache
  calls : Nat
deriving DecidableEq, Repr

/-- Source `memoize` — the body of the wrapped function.  The underlying
function is modelled as `f : List JsValue → Except JsValue JsValue`
(`Except.error` is a synchronous throw).  A promise-shaped result is
cached and returned as the wrapping IIFE promise built by
`cachePromiseResult`; generator shapes are cached as-is; any other result
is cached sentinel-marshalled and returned unchanged.  `calls` counts the
invocations of the underlying function. -/
def memoizedCall (f : List JsValue → Except JsValue JsValue) (functionKey : String)
    (args : List JsValue) (now : Int) (s : CallState) : Except JsValue JsValue × CallState :=
  let key := makeKey functionKey args
  let res := storeGet key now s.store
  match res.1 with
  | some (CacheEntry.value m) =>
    (Except.ok (unmarshallUndefined m), { store := res.2, calls := s.calls })
  | some (CacheEntry.promiseE p) =>
    (Except.ok (JsValue.promise p), { store := res.2, calls := s.calls })
  | some (CacheEntry.generatorE g) =>
    (Except.ok (JsValue.generator g), { store := res.2, calls := s.calls })
  | some (CacheEntry.asyncGeneratorE g) =>
    (Except.ok (JsValue.asyncGenerator g), { store := res.2, calls := s.calls })
  | none =>
    match f args with
    | Except.error e => (Except.error e, { store := res.2, calls := s.calls + 1 })
    | Except.ok result =>
      match result with
      | JsValue.promise p =>
        (Except.ok (JsValue.promise (PromRef.wrapped p)),
         { store := storeSet key (CacheEntry.promiseE (PromRef.wrapped p)) now res.2,
           calls := s.calls + 1 })
      | JsValue.asyncGenerator g =>
        (Except.ok (JsValue.asyncGenerator g),
         { store := storeSet key (CacheEntry.asyncGeneratorE g) now res.2, calls := s.calls + 1 })
      | JsValue.generator g =>
        (Except.ok (JsValue.generator g),
         { store := storeSet key (CacheEntry.generatorE g) now res.2, calls := s.calls + 1 })
      | v =>
        (Except.ok v,
         { store := storeSet key (CacheEntry.value (marshallUndefined v)) now res.2,
           calls := s.calls + 1 })

/-- The cache entry that a miss of `memoizedCall` with result `r` stores
(the branch map of the result classification). -/
def storedEntry : JsValue → CacheEntry
  | JsValue.promise p => CacheEntry.promiseE (PromRef.wrapped p)
  | JsValue.asyncGenerator g => CacheEntry.asyncGeneratorE g
  | JsValue.generator g => CacheEntry.generatorE g
  | v => CacheEntry.value (marshallUndefined v)

/-- The value that a miss of `memoizedCall` with result `r` returns to the
caller. -/
def storedReturn : JsValue → JsValue
  | JsValue.promise p => JsValue.promise (PromRef.wrapped p)
  | v => v

/-- The unwrap performed on a cache hit (the switch over `cached.kind` in
`memoize`). -/
def unwrapEntry : CacheEntry → JsValue
  | CacheEntry.value m => unmarshallUndefined m
  | CacheEntry.promiseE p => JsValue.promise p
  | CacheEntry.generatorE g => JsValue.generator g
  | CacheEntry.asyncGeneratorE g => JsValue.asyncGenerator g

/-- How a settled deferred computation ended. -/
inductive Settlement where
  | fulfilled (v : JsValue)
  | rejected (e : JsValue)
deriving DecidableEq, Repr

/-- Source: the async IIFE inside `cachePromiseResult` — when the
underlying promise settles, a fulfillment is passed through untouched,
while a rejection first deletes the cache entry for `key` and then
re-throws the same error into the wrapping promise. -/
def promiseContinuation (key : String) (outcome : Settlement) (c : LruCache) : Settlement × LruCache :=
  match outcome with
  | Settlement.fulfilled v => (Settlement.fulfilled v, c)
  | Settlement.rejected e => (Settlement.rejected e, (storeDelete key c).2)

/-! ## Association-list lemmas -/

theorem lookupItem_eq_none_iff {key : String} {l : List (String × CacheEntryWrapper)} :
    lookupItem key l = none ↔ ∀ kv ∈ l, kv.1 ≠ key := by
  induction l with
  | nil => simp [lookupItem]
  | cons kv rest ih =>
    by_cases h : kv.1 = key
    · simp [lookupItem, h]
    · simp [lookupItem, h, ih]

theorem lookupItem_append_of_none {key : String} {l₁ l₂ : List (String × CacheEntryWrapper)}
    (h : lookupItem key l₁ = none) :
    lookupItem key (l₁ ++ l₂) = lookupItem key l₂ := by
  induction l₁ with
  | nil => simp
  | cons kv rest ih =>
    by_cases hk : kv.1 = key
    · simp [lookupItem, hk] at h
    · simp only [lookupItem, hk, if_false, List.cons_append, if_neg hk] at h ⊢
      exact ih h

theorem mem_eraseItem {key : String} {l : List (String × CacheEntryWrapper)}
    {kv : String × CacheEntryWrapper} (h : kv ∈ eraseItem key l) :
    kv ∈ l ∧ kv.1 ≠ key := by
  induction l with
  | nil => simp [eraseItem] at h
  | cons hd rest ih =>
    by_cases hk : hd.1 = key
    · simp only [eraseItem, if_pos hk] at h
      have := ih h
      exact ⟨List.mem_cons_of_mem _ this.1, this.2⟩
    · simp only [eraseItem, if_neg hk] at h
      rcases List.mem_cons.mp h with h1 | h2
      · exact ⟨List.mem_cons.mpr (Or.inl h1), h1 ▸ hk⟩
      · have := ih h2
        exact ⟨List.mem_cons_of_mem _ this.1, this.2⟩

theorem lookupItem_eraseItem_self {key : String} {l : List (String × CacheEntryWrapper)} :
    lookupItem key (eraseItem key l) = none :=
  lookupItem_eq_none_iff.mpr (fun kv h => (mem_eraseItem h).2)

theorem eraseItem_eq_self {key : String} {l : List (String × CacheEntryWrapper)}
    (h : ∀ kv ∈ l, kv.1 ≠ key) : eraseItem key l = l := by
  induction l with
  | nil => rfl
  | cons hd rest ih =>
    have hhd : hd.1 ≠ key := h hd (List.mem_cons_self hd rest)
    simp only [eraseItem, if_neg hhd]
    rw [ih (fun kv hm => h kv (List.mem_cons_of_mem _ hm))]

theorem length_eraseItem_le (key : String) (l : List (String × CacheEntryWrapper)) :
    (eraseItem key l).length ≤ l.length := by
  induction l with
  | nil => simp [eraseItem]
  | cons hd rest ih =>
    by_cases hk : hd.1 = key
    · simp only [eraseItem, if_pos hk, List.length_cons]
      omega
    · simp only [eraseItem, if_neg hk, List.length_cons]
      omega

theorem length_eraseItem_lt {key : String} {l : List (String × CacheEntryWrapper)}
    {w : CacheEntryWrapper} (h : lookupItem key l = some w) :
    (eraseItem key l).length < l.length := by
  induction l with
  | nil => simp [lookupItem] at h
  | cons hd rest ih =>
    by_cases hk : hd.1 = key
    · simp only [eraseItem, if_pos hk, List.length_cons]
      exact Nat.lt_succ_of_le (length_eraseItem_le key rest)
    · simp only [lookupItem, if_neg hk] at h
      simp only [eraseItem, if_neg hk, List.length_cons]
      exact Nat.succ_lt_succ (ih h)

theorem lookupItem_snoc_self {key : String} {A : List (String × CacheEntryWrapper)}
    {w : CacheEntryWrapper} (h : ∀ kv ∈ A, kv.1 ≠ key) :
    lookupItem key (A ++ [(key, w)]) = some w := by
  rw [lookupItem_append_of_none (lookupItem_eq_none_iff.mpr h)]
  simp [lookupItem]

theorem lookupItem_of_mem_nodup {l : List (String × CacheEntryWrapper)}
    {key : String} {w : CacheEntryWrapper}
    (hnd : (l.map Prod.fst).Nodup) (hm : (key, w) ∈ l) :
    lookupItem key l = some w := by
  induction l with
  | nil => simp at hm
  | cons hd rest ih =>
    simp only [List.map_cons, List.nodup_cons] at hnd
    rcases List.mem_cons.mp hm with h1 | h2
    · simp [lookupItem, ← h1]
    · have hne : hd.1 ≠ key := by
        intro he
        exact hnd.1 (he ▸ (List.mem_map.mpr ⟨(key, w), h2, rfl⟩))
      simp only [lookupItem, if_neg hne]
      exact ih hnd.2 h2

theorem mem_pruneExpired {now : Int} {l : List (String × CacheEntryWrapper)}
    {kv : String × CacheEntryWrapper} (h : kv ∈ pruneExpired now l) :
    kv ∈ l ∧ isExpired now kv.2 = false := by
  have := List.mem_filter.mp h
  exact ⟨this.1, by simpa using this.2⟩

theorem pruneExpired_eq_self {now : Int} {l : List (String × CacheEntryWrapper)}
    (h : ∀ kv ∈ l, isExpired now kv.2 = false) : pruneExpired now l = l :=
  List.filter_eq_self.mpr (fun kv hm => by simp [h kv hm])

theorem length_pruneExpired_le (now : Int) (l : List (String × CacheEntryWrapper)) :
    (pruneExpired now l).length ≤ l.length :=
  List.length_filter_le _ _

/-! ## Store lemmas -/

theorem evictOverflow_options (now : Int) (c : LruCache) :
    (evictOverflow now c).options = c.options := by
  unfold evictOverflow
  split
  · rfl
  · dsimp only
    split <;> split <;> rfl

theorem evictOverflow_items (now : Int) (c : LruCache) :
    (evictOverflow now c).items =
      if c.options.max ≤ 0 then ([] : List (String × CacheEntryWrapper))
      else
        let items1 := if hasTtl c then pruneExpired now c.items else c.items
        if 0 < (items1.length : Int) - c.options.max
        then items1.drop ((items1.length : Int) - c.options.max).toNat
        else items1 := by
  unfold evictOverflow
  split
  · rfl
  · dsimp only
    split <;> split <;> rfl

theorem storeSet_options (key : String) (v : CacheEntry) (now : Int) (c : LruCache) :
    (storeSet key v now c).options = c.options := by
  unfold storeSet
  rw [evictOverflow_options]

theorem storeGet_options (key : String) (now : Int) (c : LruCache) :
    (storeGet key now c).2.options = c.options := by
  unfold storeGet
  rcases lookupItem key c.items with _ | w
  · rfl
  · dsimp only
    split
    · rfl
    · split <;> rfl

theorem storeHas_options (key : String) (now : Int) (c : LruCache) :
    (storeHas key now c).2.options = c.options := by
  unfold storeHas
  rcases lookupItem key c.items with _ | w
  · rfl
  · dsimp only
    split <;> rfl

theorem storeDelete_options (key : String) (c : LruCache) :
    (storeDelete key c).2.options = c.options := rfl

theorem setAll_options (ps : List (String × CacheEntry)) (now : Int) (c : LruCache) :
    (setAll ps now c).options = c.options := by
  induction ps generalizing c with
  | nil => rfl
  | cons p rest ih =>
    show (setAll rest now (storeSet p.1 p.2 now c)).options = c.options
    rw [ih, storeSet_options]

theorem hasTtl_congr {c c' : LruCache} (h : c'.options = c.options) :
    hasTtl c' = hasTtl c := by
  unfold hasTtl
  rw [h]

theorem isExpired_mkWrapper_now (c : LruCache) (v : CacheEntry) (now : Int) :
    isExpired now (mkWrapper c v now) = false := by
  unfold mkWrapper hasTtl
  by_cases ht : 0 < c.options.ttl
  · rw [if_pos (by simpa using ht)]
    simp only [isExpired, decide_eq_false_iff_not]
    omega
  · rw [if_neg (by simpa using ht)]
    rfl

theorem isExpired_mkWrapper_later {c : LruCache} {now now2 : Int} (v : CacheEntry)
    (h : 0 < c.options.ttl → now2 < now + c.options.ttl) :
    isExpired now2 (mkWrapper c v now) = false := by
  unfold mkWrapper hasTtl
  by_cases ht : 0 < c.options.ttl
  · rw [if_pos (by simpa using ht)]
    simp only [isExpired, decide_eq_false_iff_not]
    have := h ht
    omega
  · rw [if_neg (by simpa using ht)]
    rfl

theorem evictOverflow_snoc {c : LruCache} {A : List (String × CacheEntryWrapper)}
    {key : String} {w : CacheEntryWrapper} {now : Int}
    (hmax : 1 ≤ c.options.max) (hw : isExpired now w = false)
    (hc : c.items = A ++ [(key, w)]) :
    ∃ A2, (evictOverflow now c).items = A2 ++ [(key, w)] ∧ ∀ kv ∈ A2, kv ∈ A := by
  have hitems : ∃ A1, (if hasTtl c then pruneExpired now c.items else c.items) = A1 ++ [(key, w)]
      ∧ ∀ kv ∈ A1, kv ∈ A := by
    by_cases ht : hasTtl c
    · rw [if_pos ht, hc]
      refine ⟨pruneExpired now A, ?_, fun kv hm => (mem_pruneExpired hm).1⟩
      unfold pruneExpired
      rw [List.filter_append]
      simp [List.filter, hw]
    · rw [if_neg ht, hc]
      exact ⟨A, rfl, fun kv hm => hm⟩
  rcases hitems with ⟨A1, h1, h2⟩
  rw [evictOverflow_items, if_neg (by omega)]
  dsimp only
  rw [h1]
  by_cases hrem : 0 < (((A1 ++ [(key, w)]).length : Nat) : Int) - c.options.max
  · rw [if_pos hrem]
    have hd : ((((A1 ++ [(key, w)]).length : Nat) : Int) - c.options.max).toNat ≤ A1.length := by
      simp only [List.length_append, List.length_cons, List.length_nil]
      omega
    rw [List.drop_append_of_le_length hd]
    exact ⟨_, rfl, fun kv hm => h2 kv (List.mem_of_mem_drop hm)⟩
  · rw [if_neg hrem]
    exact ⟨A1, rfl, h2⟩

theorem storeSet_shape (key : String) (v : CacheEntry) (now : Int) {c : LruCache}
    (hmax : 1 ≤ c.options.max) :
    ∃ A, (storeSet key v now c).items = A ++ [(key, mkWrapper c v now)] ∧
      ∀ kv ∈ A, kv ∈ c.items ∧ kv.1 ≠ key := by
  unfold storeSet
  have hw : isExpired now (mkWrapper c v now) = false := isExpired_mkWrapper_now c v now
  rcases evictOverflow_snoc (c := { c with items := eraseItem key c.items ++ [(key, mkWrapper c v now)] })
      (A := eraseItem key c.items) (w := mkWrapper c v now)
      hmax hw rfl with ⟨A2, h1, h2⟩
  exact ⟨A2, h1, fun kv hm => mem_eraseItem (h2 kv hm)⟩

theorem lookupItem_storeSet_self (key : String) (v : CacheEntry) (now : Int) {c : LruCache}
    (hmax : 1 ≤ c.options.max) :
    lookupItem key (storeSet key v now c).items = some (mkWrapper c v now) := by
  rcases storeSet_shape key v now hmax with ⟨A, h1, h2⟩
  rw [h1]
  exact lookupItem_snoc_self (fun kv hm => (h2 kv hm).2)

theorem storeGet_of_lookup_none {key : String} {now : Int} {c : LruCache}
    (h : lookupItem key c.items = none) :
    storeGet key now c = (none, c) := by
  unfold storeGet
  rw [h]

theorem storeGet_hit (now : Int) {key : String} {c : LruCache} {w : CacheEntryWrapper}
    (hl : lookupItem key c.items = some w)
    (hlive : hasTtl c = true → isExpired now w = false) :
    (storeGet key now c).1 = some w.value ∧
    lookupItem key (storeGet key now c).2.items = some w := by
  have hcond : (hasTtl c && isExpired now w) = false := by
    by_cases ht : hasTtl c
    · simp [ht, hlive ht]
    · simp [ht]
  unfold storeGet
  rw [hl]
  dsimp only
  rw [hcond]
  simp only [Bool.false_eq_true, if_false]
  by_cases hrep : 10 * (c.items.length : Int) > 9 * c.options.max
  · rw [if_pos hrep]
    exact ⟨rfl, lookupItem_snoc_self (fun kv hm => (mem_eraseItem hm).2)⟩
  · rw [if_neg hrep]
    exact ⟨rfl, hl⟩

theorem storeGet_fst_none {key : String} {now : Int} {c : LruCache}
    (hnone : (storeGet key now c).1 = none) :
    lookupItem key (storeGet key now c).2.items = none := by
  cases hl : lookupItem key c.items with
  | none =>
    rw [storeGet_of_lookup_none hl]
    exact hl
  | some w =>
    by_cases hexp : (hasTtl c && isExpired now w) = true
    · unfold storeGet
      rw [hl]
      dsimp only
      rw [hexp]
      simp only [if_true]
      exact lookupItem_eraseItem_self
    · have hlive : hasTtl c = true → isExpired now w = false := by
        intro ht
        rcases Bool.not_eq_true _ |>.mp hexp |> Bool.and_eq_false_iff.mp with h | h
        · rw [ht] at h; cases h
        · exact h
      have := (storeGet_hit now hl hlive).1
      rw [hnone] at this
      cases this

/-! ## Size bounds -/

theorem evictOverflow_length {now : Int} {c : LruCache} (h0 : 0 ≤ c.options.max) :
    ((evictOverflow now c).items.length : Int) ≤ c.options.max := by
  rw [evictOverflow_items]
  by_cases hm : c.options.max ≤ 0
  · rw [if_pos hm]
    simpa using h0
  · rw [if_neg hm]
    dsimp only
    by_cases hrem :
        0 < (((if hasTtl c then pruneExpired now c.items else c.items).length : Nat) : Int) - c.options.max
    · rw [if_pos hrem]
      rw [List.length_drop]
      omega
    · rw [if_neg hrem]
      omega

theorem storeSet_length {key : String} {v : CacheEntry} {now : Int} {c : LruCache}
    (h0 : 0 ≤ c.options.max) :
    ((storeSet key v now c).items.length : Int) ≤ c.options.max := by
  unfold storeSet
  exact evictOverflow_length h0

theorem storeGet_length_le (key : String) (now : Int) (c : LruCache) :
    (storeGet key now c).2.items.length ≤ c.items.length := by
  cases hl : lookupItem key c.items with
  | none =>
    rw [storeGet_of_lookup_none hl]
  | some w =>
    unfold storeGet
    rw [hl]
    dsimp only
    by_cases hexp : (hasTtl c && isExpired now w) = true
    · rw [hexp]
      simp only [if_true]
      exact length_eraseItem_le key c.items
    · rw [Bool.not_eq_true _ |>.mp hexp]
      simp only [Bool.false_eq_true, if_false]
      by_cases hrep : 10 * (c.items.length : Int) > 9 * c.options.max
      · rw [if_pos hrep]
        have := length_eraseItem_lt hl
        simp only [List.length_append, List.length_cons, List.length_nil]
        omega
      · rw [if_neg hrep]

theorem storeHas_length_le (key : String) (now : Int) (c : LruCache) :
    (storeHas key now c).2.items.length ≤ c.items.length := by
  cases hl : lookupItem key c.items with
  | none =>
    unfold storeHas
    rw [hl]
  | some w =>
    unfold storeHas
    rw [hl]
    dsimp only
    split
    · exact length_eraseItem_le key c.items
    · exact Nat.le_refl _

theorem storeDelete_length_le (key : String) (c : LruCache) :
    (storeDelete key c).2.items.length ≤ c.items.length :=
  length_eraseItem_le key c.items

theorem storeSize_le_length (now : Int) (c : LruCache) :
    (storeSize now c).1 ≤ c.items.length := by
  unfold storeSize
  split
  · exact length_pruneExpired_le now c.items
  · exact Nat.le_refl _

/-! ## Facade lemmas -/

theorem memoizedCall_miss (now : Int) {f : List JsValue → Except JsValue JsValue} {fk : String}
    {args : List JsValue} {s : CallState} {r : JsValue}
    (hl : lookupItem (makeKey fk args) s.store.items = none)
    (hf : f args = Except.ok r) :
    memoizedCall f fk args now s =
      (Except.ok (storedReturn r),
       { store := storeSet (makeKey fk args) (storedEntry r) now s.store,
         calls := s.calls + 1 }) := by
  unfold memoizedCall
  dsimp only
  rw [storeGet_of_lookup_none hl]
  dsimp only
  rw [hf]
  cases r <;> rfl

theorem memoizedCall_hit (now : Int) {f : List JsValue → Except JsValue JsValue} {fk : String}
    {args : List JsValue} {s : CallState} {w : CacheEntryWrapper}
    (hl : lookupItem (makeKey fk args) s.store.items = some w)
    (hlive : hasTtl s.store = true → isExpired now w = false) :
    (memoizedCall f fk args now s).1 = Except.ok (unwrapEntry w.value) ∧
    (memoizedCall f fk args now s).2.calls = s.calls ∧
    lookupItem (makeKey fk args) (memoizedCall f fk args now s).2.store.items = some w ∧
    (memoizedCall f fk args now s).2.store.options = s.store.options := by
  obtain ⟨h1, h2⟩ := storeGet_hit now hl hlive
  unfold memoizedCall
  dsimp only
  cases hv : w.value <;>
    (rw [hv] at h1; rw [h1]; exact ⟨rfl, rfl, h2, storeGet_options _ _ _⟩)

theorem memoizedCall_miss_calls {f : List JsValue → Except JsValue JsValue} {fk : String}
    {args : List JsValue} {now : Int} {s : CallState}
    (hl : lookupItem (makeKey fk args) s.store.items = none) :
    (memoizedCall f fk args now s).2.calls = s.calls + 1 := by
  unfold memoizedCall
  dsimp only
  rw [storeGet_of_lookup_none hl]
  dsimp only
  cases hf : f args with
  | error e => rfl
  | ok r => cases r <;> rfl

theorem unmarshall_marshall {v : JsValue} (h : v ≠ JsValue.null) :
    unmarshallUndefined (marshallUndefined v) = v := by
  cases v <;> first | rfl | exact absurd rfl h

theorem unwrapEntry_storedEntry {r : JsValue} (h : r ≠ JsValue.null) :
    unwrapEntry (storedEntry r) = storedReturn r := by
  cases r <;> first | rfl | exact absurd rfl h

/-! ## Bulk-insertion characterization -/

theorem mkWrapper_congr {c c' : LruCache} (h : c'.options = c.options) (v : CacheEntry) (now : Int) :
    mkWrapper c' v now = mkWrapper c v now := by
  unfold mkWrapper hasTtl
  rw [h]

theorem setAll_append_single (ps : List (String × CacheEntry)) (p : String × CacheEntry)
    (now : Int) (c : LruCache) :
    setAll (ps ++ [p]) now c = storeSet p.1 p.2 now (setAll ps now c) := by
  unfold setAll
  rw [List.foldl_append]
  rfl

theorem mem_evictOverflow {now : Int} {c : LruCache} {kv : String × CacheEntryWrapper}
    (h : kv ∈ (evictOverflow now c).items) : kv ∈ c.items := by
  rw [evictOverflow_items] at h
  by_cases hm : c.options.max ≤ 0
  · rw [if_pos hm] at h
    cases h
  · rw [if_neg hm] at h
    dsimp only at h
    have h2 : kv ∈ (if hasTtl c then pruneExpired now c.items else c.items) := by
      by_cases hrem :
          0 < (((if hasTtl c then pruneExpired now c.items else c.items).length : Nat) : Int) - c.options.max
      · rw [if_pos hrem] at h
        exact List.mem_of_mem_drop h
      · rw [if_neg hrem] at h
        exact h
    by_cases ht : hasTtl c
    · rw [if_pos ht] at h2
      exact (mem_pruneExpired h2).1
    · rw [if_neg ht] at h2
      exact h2

theorem storeSet_forall {c : LruCache} {key : String} {v : CacheEntry} {now : Int}
    {Q : CacheEntryWrapper → Prop}
    (h : ∀ kv ∈ c.items, Q kv.2) (hv : Q (mkWrapper c v now)) :
    ∀ kv ∈ (storeSet key v now c).items, Q kv.2 := by
  intro kv hm
  have hm2 := mem_evictOverflow hm
  simp only at hm2
  rcases List.mem_append.mp hm2 with h1 | h2
  · exact h kv (mem_eraseItem h1).1
  · rcases List.mem_singleton.mp h2 with rfl
    exact hv

theorem setAll_forall {now : Int} {Q : CacheEntryWrapper → Prop} {o : RequiredCacheConfig}
    (hQ : ∀ (c' : LruCache), c'.options = o → ∀ v, Q (mkWrapper c' v now)) :
    ∀ (ps : List (String × CacheEntry)) (c : LruCache), c.options = o →
      (∀ kv ∈ c.items, Q kv.2) → ∀ kv ∈ (setAll ps now c).items, Q kv.2 := by
  intro ps
  induction ps with
  | nil => exact fun c _ hall => hall
  | cons p rest ih =>
    intro c hco hall
    show ∀ kv ∈ (setAll rest now (storeSet p.1 p.2 now c)).items, Q kv.2
    exact ih (storeSet p.1 p.2 now c) (by rw [storeSet_options, hco])
      (storeSet_forall hall (hQ c hco p.2))

theorem storeSet_fresh {c : LruCache} {key : String} {v : CacheEntry} {now : Int}
    (hmax : 1 ≤ c.options.max)
    (hfresh : ∀ kv ∈ c.items, kv.1 ≠ key)
    (hlive : ∀ kv ∈ c.items, isExpired now kv.2 = false) :
    (storeSet key v now c).items =
      c.items.drop (c.items.length + 1 - c.options.max.toNat) ++ [(key, mkWrapper c v now)] := by
  unfold storeSet
  rw [eraseItem_eq_self hfresh, evictOverflow_items]
  rw [if_neg (by simpa using (by omega : ¬ c.options.max ≤ 0))]
  dsimp only [hasTtl]
  have hall : ∀ kv ∈ c.items ++ [(key, mkWrapper c v now)], isExpired now kv.2 = false := by
    intro kv hm
    rcases List.mem_append.mp hm with h1 | h2
    · exact hlive kv h1
    · rcases List.mem_singleton.mp h2 with rfl
      exact isExpired_mkWrapper_now c v now
  have hitems1 :
      (if (decide (0 < c.options.ttl)) = true
        then pruneExpired now (c.items ++ [(key, mkWrapper c v now)])
        else c.items ++ [(key, mkWrapper c v now)]) =
      c.items ++ [(key, mkWrapper c v now)] := by
    split
    · exact pruneExpired_eq_self hall
    · rfl
  rw [hitems1]
  by_cases hrem : 0 < (((c.items ++ [(key, mkWrapper c v now)]).length : Nat) : Int) - c.options.max
  · rw [if_pos hrem]
    have hd : ((((c.items ++ [(key, mkWrapper c v now)]).length : Nat) : Int) - c.options.max).toNat
        ≤ c.items.length := by
      simp only [List.length_append, List.length_cons, List.length_nil]
      omega
    rw [List.drop_append_of_le_length hd]
    have hidx : ((((c.items ++ [(key, mkWrapper c v now)]).length : Nat) : Int) - c.options.max).toNat
        = c.items.length + 1 - c.options.max.toNat := by
      simp only [List.length_append, List.length_cons, List.length_nil]
      omega
    rw [hidx]
  · rw [if_neg hrem]
    have hidx : c.items.length + 1 - c.options.max.toNat = 0 := by
      simp only [List.length_append, List.length_cons, List.length_nil] at hrem
      omega
    rw [hidx, List.drop_zero]

theorem snoc_drop_helper {α : Type _} (M : List α) (q : α) {i j : Nat}
    (hj : j ≤ M.length) (hij : i = j) :
    M.drop i ++ [q] = (M ++ [q]).drop j := by
  subst hij
  rw [List.drop_append_of_le_length hj]

theorem setAll_fresh_items {cfg : CacheConfig} (now : Int) (ps : List (String × CacheEntry))
    (hnd : (ps.map Prod.fst).Nodup) (hmax : 1 ≤ (mergeDefaults cfg).max) :
    (setAll ps now (mkCache cfg)).items =
      (ps.map (fun p => (p.1, mkWrapper (mkCache cfg) p.2 now))).drop
        (ps.length - (mergeDefaults cfg).max.toNat) := by
  induction ps using List.reverseRecOn with
  | nil => simp [setAll, mkCache]
  | append_singleton rest p ih =>
    have hnd2 : (rest.map Prod.fst).Nodup := by
      rw [List.map_append] at hnd
      exact (List.nodup_append.mp hnd).1
    have hp : p.1 ∉ rest.map Prod.fst := by
      rw [List.map_append] at hnd
      intro hmem
      exact (List.nodup_append.mp hnd).2.2 hmem (by simp)
    have ihr := ih hnd2
    set c1 := setAll rest now (mkCache cfg) with hc1
    have hopt : c1.options = mergeDefaults cfg := setAll_options _ _ _
    have hfresh : ∀ kv ∈ c1.items, kv.1 ≠ p.1 := by
      intro kv hm
      rw [ihr] at hm
      have hm2 := List.mem_of_mem_drop hm
      rcases List.mem_map.mp hm2 with ⟨a, ha, rfl⟩
      intro he
      exact hp (he ▸ List.mem_map.mpr ⟨a, ha, rfl⟩)
    have hlive : ∀ kv ∈ c1.items, isExpired now kv.2 = false := by
      intro kv hm
      rw [ihr] at hm
      have hm2 := List.mem_of_mem_drop hm
      rcases List.mem_map.mp hm2 with ⟨a, _, rfl⟩
      exact isExpired_mkWrapper_now (mkCache cfg) a.2 now
    rw [setAll_append_single, ← hc1]
    rw [storeSet_fresh (by rw [hopt]; exact hmax) hfresh hlive]
    rw [mkWrapper_congr (show c1.options = (mkCache cfg).options from hopt), hopt, ihr]
    rw [List.length_drop, List.length_map, List.drop_drop]
    rw [List.map_append, List.map_cons, List.map_nil]
    refine snoc_drop_helper _ _ ?_ ?_
    · simp only [List.length_map, List.length_append, List.length_cons, List.length_nil]
      omega
    · simp only [List.length_append, List.length_cons, List.length_nil]
      omega

theorem mkWrapper_value (c : LruCache) (v : CacheEntry) (now : Int) :
    (mkWrapper c v now).value = v := by
  unfold mkWrapper
  split <;> rfl

theorem storeSet_max_nonpos {c : LruCache} (key : String) (v : CacheEntry) (now : Int)
    (hm : c.options.max ≤ 0) :
    (storeSet key v now c).items = [] := by
  unfold storeSet
  rw [evictOverflow_items]
  rw [if_pos (by simpa using hm)]

theorem isExpired_mkWrapper_expired {c : LruCache} {now now2 : Int} (v : CacheEntry)
    (ht : 0 < c.options.ttl) (h : now + c.options.ttl ≤ now2) :
    isExpired now2 (mkWrapper c v now) = true := by
  unfold mkWrapper hasTtl
  rw [if_pos (by simpa using ht)]
  simp only [isExpired, decide_eq_true_eq]
  exact h

theorem storeGet_expired {key : String} {now : Int} {c : LruCache} {w : CacheEntryWrapper}
    (hl : lookupItem key c.items = some w)
    (ht : hasTtl c = true) (he : isExpired now w = true) :
    storeGet key now c = (none, { c with items := eraseItem key c.items }) := by
  unfold storeGet
  rw [hl]
  dsimp only
  rw [ht, he]
  rfl

theorem storeHas_expired {key : String} {now : Int} {c : LruCache} {w : CacheEntryWrapper}
    (hl : lookupItem key c.items = some w)
    (ht : hasTtl c = true) (he : isExpired now w = true) :
    storeHas key now c = (false, { c with items := eraseItem key c.items }) := by
  unfold storeHas
  rw [hl]
  dsimp only
  rw [ht, he]
  rfl

theorem storeHas_of_lookup_none {key : String} {now : Int} {c : LruCache}
    (h : lookupItem key c.items = none) :
    storeHas key now c = (false, c) := by
  unfold storeHas
  rw [h]

theorem storeEntries_keys_sublist (now : Int) (c : LruCache) :
    ((storeEntries now c).1.map Prod.fst).Sublist (c.items.map Prod.fst) := by
  have hcomp : (Prod.fst ∘ fun kv : String × CacheEntryWrapper => (kv.1, kv.2.value)) = Prod.fst :=
    funext (fun kv => rfl)
  unfold storeEntries
  split
  · dsimp only
    rw [List.map_map, hcomp]
    exact (List.filter_sublist _).map Prod.fst
  · dsimp only
    rw [List.map_map, hcomp]

/-! ## Serializer character lemmas -/

theorem digitChar_ne_bar (m : Nat) : Nat.digitChar m ≠ '|' := by
  by_cases h : m < 16
  · interval_cases m <;> decide
  · have h2 : Nat.digitChar m = Char.ofNat 42 := by
      unfold Nat.digitChar
      repeat rw [if_neg (by omega)]
    rw [h2]
    decide

theorem bar_not_mem_toDigitsCore (fuel n : Nat) (ds : List Char) (h : '|' ∉ ds) :
    '|' ∉ Nat.toDigitsCore 10 fuel n ds := by
  induction fuel generalizing n ds with
  | zero => simpa [Nat.toDigitsCore] using h
  | succ f ih =>
    unfold Nat.toDigitsCore
    dsimp only
    split
    · intro hmem
      rcases List.mem_cons.mp hmem with h1 | h2
      · exact digitChar_ne_bar _ h1.symm
      · exact h h2
    · refine ih _ _ ?_
      intro hmem
      rcases List.mem_cons.mp hmem with h1 | h2
      · exact digitChar_ne_bar _ h1.symm
      · exact h h2

theorem bar_not_mem_natRepr (n : Nat) : '|' ∉ (Nat.repr n).data :=
  bar_not_mem_toDigitsCore (n + 1) n [] (by simp)

theorem bar_not_mem_intStr (i : Int) : '|' ∉ (toString i).data := by
  show '|' ∉ (Int.repr i).data
  cases i with
  | ofNat m => exact bar_not_mem_natRepr m
  | negSucc m =>
    show '|' ∉ ("-" ++ Nat.repr (m + 1)).data
    intro hmem
    rcases List.mem_append.mp hmem with h1 | h2
    · exact absurd h1 (by decide)
    · exact bar_not_mem_natRepr _ h2

theorem bar_not_mem_jsonEscapeChar {c : Char} (h : c ≠ '|') : '|' ∉ jsonEscapeChar c := by
  unfold jsonEscapeChar
  split_ifs with h1 h2 h3 h4 h5 h6 h7 h8
  · decide
  · decide
  · decide
  · decide
  · decide
  · decide
  · decide
  · intro hmem
    rcases List.mem_cons.mp hmem with he | hmem
    · exact absurd he (by decide)
    rcases List.mem_cons.mp hmem with he | hmem
    · exact absurd he (by decide)
    rcases List.mem_cons.mp hmem with he | hmem
    · exact absurd he (by decide)
    rcases List.mem_cons.mp hmem with he | hmem
    · exact absurd he (by decide)
    rcases List.mem_cons.mp hmem with he | hmem
    · exact digitChar_ne_bar _ he.symm
    rcases List.mem_cons.mp hmem with he | hmem
    · exact digitChar_ne_bar _ he.symm
    · simp at hmem
  · intro hmem
    rcases List.mem_cons.mp hmem with he | hmem
    · exact h he.symm
    · simp at hmem

theorem bar_not_mem_jsonStringify {s : String} (h : '|' ∉ s.data) :
    '|' ∉ (jsonStringify s).data := by
  show '|' ∉ '"' :: ((s.data.map jsonEscapeChar).flatten ++ ['"'])
  intro hmem
  rcases List.mem_cons.mp hmem with h1 | h2
  · exact absurd h1 (by decide)
  rcases List.mem_append.mp h2 with h3 | h4
  · rcases List.mem_flatten.mp h3 with ⟨l, hl, hmem2⟩
    rcases List.mem_map.mp hl with ⟨ch, hch, rfl⟩
    have hne : ch ≠ '|' := fun he => h (he ▸ hch)
    exact bar_not_mem_jsonEscapeChar hne hmem2
  · exact absurd h4 (by decide)

/-! ## Claim C5 -/

/-- Claim C5 as stated is false: the string argument `"a|b"` contains the
join delimiter, is therefore routed through `JSON.stringify`, and JSON
escaping does not escape the delimiter character, so its per-argument
encoding `s:"a|b"` contains the join delimiter. -/
theorem serializer_delimiter_counterexample :
    '|' ∈ (serializeArgument (JsValue.str "a|b")).data := by decide

/-- Claim C5 (amended): for every primitive argument value (null,
undefined, boolean, number, bigint, or a string that does not itself
contain the delimiter character), the per-argument encoding never contains
the join delimiter used to concatenate argument encodings. -/
theorem serializer_delimiter_amended (v : JsValue) (hp : isPrimitiveArg v = true)
    (hs : ∀ t, v = JsValue.str t → '|' ∉ t.data) :
    '|' ∉ (serializeArgument v).data := by
  cases v with
  | null => decide
  | undef => decide
  | bool b => cases b <;> decide
  | nan => decide
  | negZero => decide
  | num i =>
    show '|' ∉ ("n:" ++ toString i).data
    rw [show ("n:" ++ toString i).data = 'n' :: ':' :: (toString i).data from rfl]
    intro hmem
    rcases List.mem_cons.mp hmem with h1 | hmem
    · exact absurd h1 (by decide)
    rcases List.mem_cons.mp hmem with h1 | hmem
    · exact absurd h1 (by decide)
    exact bar_not_mem_intStr i hmem
  | bigint i =>
    show '|' ∉ ("B:" ++ toString i).data
    rw [show ("B:" ++ toString i).data = 'B' :: ':' :: (toString i).data from rfl]
    intro hmem
    rcases List.mem_cons.mp hmem with h1 | hmem
    · exact absurd h1 (by decide)
    rcases List.mem_cons.mp hmem with h1 | hmem
    · exact absurd h1 (by decide)
    exact bar_not_mem_intStr i hmem
  | str t =>
    have ht := hs t rfl
    show '|' ∉ (if '|' ∈ t.data ∨ ':' ∈ t.data ∨ 100 < t.length
        then "s:" ++ jsonStringify t else "s:" ++ t).data
    split
    · rw [show ("s:" ++ jsonStringify t).data = 's' :: ':' :: (jsonStringify t).data from rfl]
      intro hmem
      rcases List.mem_cons.mp hmem with h1 | hmem
      · exact absurd h1 (by decide)
      rcases List.mem_cons.mp hmem with h1 | hmem
      · exact absurd h1 (by decide)
      exact bar_not_mem_jsonStringify ht hmem
    · rw [show ("s:" ++ t).data = 's' :: ':' :: t.data from rfl]
      intro hmem
      rcases List.mem_cons.mp hmem with h1 | hmem
      · exact absurd h1 (by decide)
      rcases List.mem_cons.mp hmem with h1 | hmem
      · exact absurd h1 (by decide)
      exact ht hmem
  | symGlobal key => simp [isPrimitiveArg] at hp
  | symLocal id descr => simp [isPrimitiveArg] at hp
  | obj id => simp [isPrimitiveArg] at hp
  | fn id => simp [isPrimitiveArg] at hp
  | promise p => simp [isPrimitiveArg] at hp
  | generator id => simp [isPrimitiveArg] at hp
  | asyncGenerator id => simp [isPrimitiveArg] at hp

/-- Witness for the amended C5 at the concrete string argument `"abc"`. -/
theorem serializer_delimiter_amended_witness :
    '|' ∉ (serializeArgument (JsValue.str "abc")).data :=
  serializer_delimiter_amended (JsValue.str "abc") (by decide)
    (fun t ht => by cases ht; decide)

/-! ## Claim C7 -/

/-- Claim C7 as stated is false: on a miss caused by an expired record,
the probing `get` deletes that record before the wrapped function throws,
so the store is not left exactly as it was before the call. -/
theorem sync_throw_counterexample :
    (let c0 : LruCache :=
      { options := defaultOptions,
        items := [("fn:0",
          { value := CacheEntry.value (Marshalled.val (JsValue.num 1)), expiresAt := some 5 })] };
     let out := memoizedCall (fun _ => Except.error (JsValue.str "boom")) "fn:0" [] 10
        { store := c0, calls := 0 };
     out.1 = Except.error (JsValue.str "boom") ∧ out.2.store ≠ c0 ∧ out.2.calls = 1) := by
  dsimp only
  decide

/-- Claim C7 (amended): if the wrapped function throws synchronously on a
cache miss, the throw propagates unchanged, no entry exists for that key
afterwards (so a later identical call re-invokes), and the only possible
store mutation is the probe's lazy deletion of an already-expired record
under that key: when the key held no record at all, the store is exactly
unchanged. -/
theorem sync_throw_amended (f : List JsValue → Except JsValue JsValue) (fk : String)
    (args : List JsValue) (now : Int) (s : CallState) (e : JsValue)
    (hf : f args = Except.error e)
    (hmiss : (storeGet (makeKey fk args) now s.store).1 = none) :
    (memoizedCall f fk args now s).1 = Except.error e ∧
    (memoizedCall f fk args now s).2.calls = s.calls + 1 ∧
    (memoizedCall f fk args now s).2.store = (storeGet (makeKey fk args) now s.store).2 ∧
    lookupItem (makeKey fk args) (memoizedCall f fk args now s).2.store.items = none ∧
    (lookupItem (makeKey fk args) s.store.items = none →
      (memoizedCall f fk args now s).2.store = s.store) := by
  have hred : memoizedCall f fk args now s =
      (Except.error e,
        { store := (storeGet (makeKey fk args) now s.store).2, calls := s.calls + 1 }) := by
    unfold memoizedCall
    dsimp only
    rw [hmiss, hf]
  rw [hred]
  refine ⟨rfl, rfl, rfl, ?_, ?_⟩
  · exact storeGet_fst_none hmiss
  · intro h
    rw [storeGet_of_lookup_none h]

/-- Witness for the amended C7 on an empty default store. -/
theorem sync_throw_amended_witness :
    (let s0 : CallState := { store := mkCache {}, calls := 0 };
     let out := memoizedCall (fun _ => Except.error JsValue.nan) "k" [] 0 s0;
     out.1 = Except.error JsValue.nan ∧ out.2.calls = 1 ∧
     out.2.store = (storeGet "k" 0 s0.store).2 ∧
     lookupItem "k" out.2.store.items = none ∧
     (lookupItem "k" s0.store.items = none → out.2.store = s0.store)) :=
  sync_throw_amended (fun _ => Except.error JsValue.nan) "k" [] 0
    { store := mkCache {}, calls := 0 } JsValue.nan rfl rfl

/-! ## Claim C1 -/

/-- Claim C1 as stated is false: for the pure function constantly
returning `null`, under the default configuration and with both calls
inside the TTL window, the first call returns `null` while the second
(cache-hit) call returns `undefined`, because `marshallUndefined` uses
the nullish-coalescing operator and maps `null` to the sentinel. -/
theorem memoize_idempotent_counterexample :
    (let s0 : CallState := { store := mkCache {}, calls := 0 };
     let o1 := memoizedCall (fun _ => Except.ok JsValue.null) "fn:0" [] 0 s0;
     let o2 := memoizedCall (fun _ => Except.ok JsValue.null) "fn:0" [] 1 o1.2;
     o1.1 = Except.ok JsValue.null ∧ o2.1 = Except.ok JsValue.undef ∧
     o1.1 ≠ o2.1 ∧ o2.2.calls = 1) := by
  dsimp only
  decide

/-- Claim C1 (amended): for every pure function and fixed argument list
whose result is not `null`, under the default configuration with both
calls inside the TTL window, calling the memoized function twice in
sequence yields the same observable result both times, and the underlying
function is invoked exactly once. -/
theorem memoize_idempotent_amended (f : List JsValue → Except JsValue JsValue) (fk : String)
    (args : List JsValue) (now now2 : Int) (s : CallState) (r : JsValue)
    (hopts : s.store.options = defaultOptions)
    (hmiss : lookupItem (makeKey fk args) s.store.items = none)
    (hf : f args = Except.ok r) (hr : r ≠ JsValue.null)
    (ht2 : now2 < now + 300000) :
    (memoizedCall f fk args now2 (memoizedCall f fk args now s).2).1
        = (memoizedCall f fk args now s).1 ∧
    (memoizedCall f fk args now s).2.calls = s.calls + 1 ∧
    (memoizedCall f fk args now2 (memoizedCall f fk args now s).2).2.calls = s.calls + 1 := by
  have hcall1 := memoizedCall_miss now hmiss hf
  have hmax : 1 ≤ s.store.options.max := by
    rw [hopts]
    decide
  have hlk : lookupItem (makeKey fk args)
      (storeSet (makeKey fk args) (storedEntry r) now s.store).items
      = some (mkWrapper s.store (storedEntry r) now) :=
    lookupItem_storeSet_self _ _ _ hmax
  have hlive : hasTtl (storeSet (makeKey fk args) (storedEntry r) now s.store) = true →
      isExpired now2 (mkWrapper s.store (storedEntry r) now) = false := by
    intro _
    refine isExpired_mkWrapper_later _ ?_
    intro _
    rw [hopts, show defaultOptions.ttl = 300000 from by decide]
    exact ht2
  have hhit := memoizedCall_hit now2 (f := f)
      (s := { store := storeSet (makeKey fk args) (storedEntry r) now s.store,
              calls := s.calls + 1 }) hlk hlive
  rw [hcall1]
  dsimp only
  refine ⟨?_, rfl, hhit.2.1⟩
  exact hhit.1.trans (by rw [mkWrapper_value, unwrapEntry_storedEntry hr])

/-- Witness for the amended C1 with a function returning the number 7. -/
theorem memoize_idempotent_amended_witness :
    (let s0 : CallState := { store := mkCache {}, calls := 0 };
     let o1 := memoizedCall (fun _ => Except.ok (JsValue.num 7)) "k" [] 0 s0;
     let o2 := memoizedCall (fun _ => Except.ok (JsValue.num 7)) "k" [] 1 o1.2;
     o2.1 = o1.1 ∧ o1.2.calls = 1 ∧ o2.2.calls = 1) :=
  memoize_idempotent_amended (fun _ => Except.ok (JsValue.num 7)) "k" [] 0 1
    { store := mkCache {}, calls := 0 } (JsValue.num 7) rfl rfl rfl
    (by decide) (by decide)

/-! ## Claim C9 -/

/-- Claim C9: when the underlying call returns `null` (default
configuration, within the TTL window), the first call returns `null`, but
the cached payload is the undefined sentinel, so the subsequent cache-hit
call returns `undefined`; the stored record keeps the sentinel, so every
further hit also returns `undefined`. -/
theorem null_unmarshalls_to_undef (f : List JsValue → Except JsValue JsValue) (fk : String)
    (args : List JsValue) (now now2 : Int) (s : CallState)
    (hopts : s.store.options = defaultOptions)
    (hmiss : lookupItem (makeKey fk args) s.store.items = none)
    (hf : f args = Except.ok JsValue.null)
    (ht2 : now2 < now + 300000) :
    (memoizedCall f fk args now s).1 = Except.ok JsValue.null ∧
    (memoizedCall f fk args now2 (memoizedCall f fk args now s).2).1
        = Except.ok JsValue.undef ∧
    (memoizedCall f fk args now2 (memoizedCall f fk args now s).2).2.calls = s.calls + 1 ∧
    lookupItem (makeKey fk args)
        (memoizedCall f fk args now2 (memoizedCall f fk args now s).2).2.store.items
      = some (mkWrapper s.store (CacheEntry.value Marshalled.sentinel) now) := by
  have hcall1 := memoizedCall_miss now hmiss hf
  have hmax : 1 ≤ s.store.options.max := by
    rw [hopts]
    decide
  have hlk : lookupItem (makeKey fk args)
      (storeSet (makeKey fk args) (storedEntry JsValue.null) now s.store).items
      = some (mkWrapper s.store (storedEntry JsValue.null) now) :=
    lookupItem_storeSet_self _ _ _ hmax
  have hlive : hasTtl (storeSet (makeKey fk args) (storedEntry JsValue.null) now s.store) = true →
      isExpired now2 (mkWrapper s.store (storedEntry JsValue.null) now) = false := by
    intro _
    refine isExpired_mkWrapper_later _ ?_
    intro _
    rw [hopts, show defaultOptions.ttl = 300000 from by decide]
    exact ht2
  have hhit := memoizedCall_hit now2 (f := f)
      (s := { store := storeSet (makeKey fk args) (storedEntry JsValue.null) now s.store,
              calls := s.calls + 1 }) hlk hlive
  rw [hcall1]
  dsimp only
  refine ⟨rfl, ?_, hhit.2.1, hhit.2.2.1⟩
  exact hhit.1.trans (by rw [mkWrapper_value]; rfl)

/-- Witness for C9 with the constantly-null function on an empty default
store. -/
theorem null_unmarshalls_to_undef_witness :
    (let s0 : CallState := { store := mkCache {}, calls := 0 };
     let o1 := memoizedCall (fun _ => Except.ok JsValue.null) "k" [] 0 s0;
     let o2 := memoizedCall (fun _ => Except.ok JsValue.null) "k" [] 1 o1.2;
     o1.1 = Except.ok JsValue.null ∧ o2.1 = Except.ok JsValue.undef ∧ o2.2.calls = 1 ∧
     lookupItem "k" o2.2.store.items
       = some (mkWrapper s0.store (CacheEntry.value Marshalled.sentinel) 0)) :=
  null_unmarshalls_to_undef (fun _ => Except.ok JsValue.null) "k" [] 0 1
    { store := mkCache {}, calls := 0 } rfl rfl rfl (by decide)

/-! ## Claim C2 -/

/-- Claim C2: deferred deduplication.  First part: a miss whose result is
promise-shaped returns the wrapping promise and the returned state already
holds that same promise under the key (the source sets the cache before
returning), with exactly one underlying invocation.  Second part: while
the key holds an unexpired promise entry (not evicted, not expired), any
further call returns that stored promise without invoking the underlying
function, and leaves the entry in place — so every caller in the
outstanding window shares the single underlying invocation. -/
theorem deferred_dedup :
    (∀ (f : List JsValue → Except JsValue JsValue) (fk : String) (args : List JsValue)
        (now : Int) (s : CallState) (p : PromRef),
      1 ≤ s.store.options.max →
      lookupItem (makeKey fk args) s.store.items = none →
      f args = Except.ok (JsValue.promise p) →
      (memoizedCall f fk args now s).1 = Except.ok (JsValue.promise (PromRef.wrapped p)) ∧
      (memoizedCall f fk args now s).2.calls = s.calls + 1 ∧
      lookupItem (makeKey fk args) (memoizedCall f fk args now s).2.store.items =
        some (mkWrapper s.store (CacheEntry.promiseE (PromRef.wrapped p)) now)) ∧
    (∀ (f : List JsValue → Except JsValue JsValue) (fk : String) (args : List JsValue)
        (now2 : Int) (s : CallState) (q : PromRef) (w : CacheEntryWrapper),
      lookupItem (makeKey fk args) s.store.items = some w →
      w.value = CacheEntry.promiseE q →
      (hasTtl s.store = true → isExpired now2 w = false) →
      (memoizedCall f fk args now2 s).1 = Except.ok (JsValue.promise q) ∧
      (memoizedCall f fk args now2 s).2.calls = s.calls ∧
      lookupItem (makeKey fk args) (memoizedCall f fk args now2 s).2.store.items = some w) := by
  constructor
  · intro f fk args now s p hmax hmiss hf
    have hcall := memoizedCall_miss now hmiss hf
    rw [hcall]
    dsimp only
    exact ⟨rfl, rfl, lookupItem_storeSet_self _ _ _ hmax⟩
  · intro f fk args now2 s q w hl hv hlive
    have hhit := memoizedCall_hit now2 (f := f) hl hlive
    refine ⟨?_, hhit.2.1, hhit.2.2.1⟩
    rw [hhit.1, hv]
    rfl

/-- Witness for C2: two calls with the same key at the same instant; the
second returns the stored wrapping promise without a second invocation. -/
theorem deferred_dedup_witness :
    (let s0 : CallState := { store := mkCache {}, calls := 0 };
     let o1 := memoizedCall (fun _ => Except.ok (JsValue.promise (PromRef.base 0))) "k" [] 0 s0;
     let o2 := memoizedCall (fun _ => Except.ok (JsValue.promise (PromRef.base 0))) "k" [] 0 o1.2;
     o1.1 = Except.ok (JsValue.promise (PromRef.wrapped (PromRef.base 0))) ∧ o1.2.calls = 1 ∧
     o2.1 = Except.ok (JsValue.promise (PromRef.wrapped (PromRef.base 0))) ∧ o2.2.calls = 1) := by
  have h1 := deferred_dedup.1 (fun _ => Except.ok (JsValue.promise (PromRef.base 0))) "k" [] 0
    { store := mkCache {}, calls := 0 } (PromRef.base 0) (by decide) rfl rfl
  have h2 := deferred_dedup.2 (fun _ => Except.ok (JsValue.promise (PromRef.base 0))) "k" [] 0
    (memoizedCall (fun _ => Except.ok (JsValue.promise (PromRef.base 0))) "k" [] 0
      { store := mkCache {}, calls := 0 }).2
    (PromRef.wrapped (PromRef.base 0))
    { value := CacheEntry.promiseE (PromRef.wrapped (PromRef.base 0)), expiresAt := some 300000 }
    (by decide) (by decide) (by decide)
  exact ⟨h1.1, h1.2.1, h2.1, h2.2.1.trans h1.2.1⟩

/-! ## Claim C3 -/

/-- Claim C3: after a memoized call stores an in-flight promise, the
rejection continuation deletes the cache entry for that key and
propagates the same rejection to the awaiting caller, so an immediately
following call with the same arguments misses and re-invokes the
underlying function. -/
theorem deferred_failure_eviction (f : List JsValue → Except JsValue JsValue) (fk : String)
    (args : List JsValue) (now now2 : Int) (s : CallState) (p : PromRef) (e : JsValue)
    (hmax : 1 ≤ s.store.options.max)
    (hmiss : lookupItem (makeKey fk args) s.store.items = none)
    (hf : f args = Except.ok (JsValue.promise p)) :
    lookupItem (makeKey fk args) (memoizedCall f fk args now s).2.store.items =
      some (mkWrapper s.store (CacheEntry.promiseE (PromRef.wrapped p)) now) ∧
    (promiseContinuation (makeKey fk args) (Settlement.rejected e)
        (memoizedCall f fk args now s).2.store).1 = Settlement.rejected e ∧
    lookupItem (makeKey fk args)
        (promiseContinuation (makeKey fk args) (Settlement.rejected e)
          (memoizedCall f fk args now s).2.store).2.items = none ∧
    (memoizedCall f fk args now2
        { store := (promiseContinuation (makeKey fk args) (Settlement.rejected e)
            (memoizedCall f fk args now s).2.store).2,
          calls := (memoizedCall f fk args now s).2.calls }).2.calls
      = (memoizedCall f fk args now s).2.calls + 1 := by
  have hcall := memoizedCall_miss now hmiss hf
  refine ⟨?_, rfl, lookupItem_eraseItem_self, ?_⟩
  · rw [hcall]
    dsimp only
    exact lookupItem_storeSet_self _ _ _ hmax
  · exact memoizedCall_miss_calls lookupItem_eraseItem_self

/-- Witness for C3 on an empty default store. -/
theorem deferred_failure_eviction_witness :
    (let s0 : CallState := { store := mkCache {}, calls := 0 };
     let o1 := memoizedCall (fun _ => Except.ok (JsValue.promise (PromRef.base 0))) "k" [] 0 s0;
     let rej := promiseContinuation "k" (Settlement.rejected (JsValue.str "oops")) o1.2.store;
     lookupItem "k" o1.2.store.items =
       some (mkWrapper s0.store (CacheEntry.promiseE (PromRef.wrapped (PromRef.base 0))) 0) ∧
     rej.1 = Settlement.rejected (JsValue.str "oops") ∧
     lookupItem "k" rej.2.items = none ∧
     (memoizedCall (fun _ => Except.ok (JsValue.promise (PromRef.base 0))) "k" [] 7
        { store := rej.2, calls := o1.2.calls }).2.calls = o1.2.calls + 1) :=
  deferred_failure_eviction (fun _ => Except.ok (JsValue.promise (PromRef.base 0))) "k" [] 0 7
    { store := mkCache {}, calls := 0 } (PromRef.base 0) (JsValue.str "oops")
    (by decide) rfl rfl

/-! ## Claim C6 -/

/-- Claim C6: with TTL enabled, an entry inserted at time `now` is
reported absent by both `get` and `has` at any time strictly past
`now + ttl`, and the expired record is deleted as a side effect of the
access; moreover `get` never returns a record whose `expiresAt` is at or
before the current time. -/
theorem ttl_expiry :
    (∀ (c : LruCache) (key : String) (v : CacheEntry) (now now2 : Int),
      0 < c.options.ttl → now + c.options.ttl < now2 →
      (storeGet key now2 (storeSet key v now c)).1 = none ∧
      lookupItem key (storeGet key now2 (storeSet key v now c)).2.items = none ∧
      (storeHas key now2 (storeSet key v now c)).1 = false ∧
      lookupItem key (storeHas key now2 (storeSet key v now c)).2.items = none) ∧
    (∀ (c : LruCache) (key : String) (now e : Int) (w : CacheEntryWrapper),
      0 < c.options.ttl →
      lookupItem key c.items = some w → w.expiresAt = some e → e ≤ now →
      (storeGet key now c).1 = none) := by
  constructor
  · intro c key v now now2 httl hlate
    by_cases hmax : 1 ≤ c.options.max
    · have hlk := lookupItem_storeSet_self key v now hmax
      have hts : hasTtl (storeSet key v now c) = true := by
        unfold hasTtl
        rw [storeSet_options]
        simpa using httl
      have hexp : isExpired now2 (mkWrapper c v now) = true :=
        isExpired_mkWrapper_expired v httl (by omega)
      rw [storeGet_expired hlk hts hexp, storeHas_expired hlk hts hexp]
      exact ⟨rfl, lookupItem_eraseItem_self, rfl, lookupItem_eraseItem_self⟩
    · have hempty : (storeSet key v now c).items = [] :=
        storeSet_max_nonpos key v now (by omega)
      have hlk : lookupItem key (storeSet key v now c).items = none := by
        rw [hempty]
        rfl
      rw [storeGet_of_lookup_none hlk, storeHas_of_lookup_none hlk]
      exact ⟨rfl, hlk, rfl, hlk⟩
  · intro c key now e w httl hl hee hle
    have hts : hasTtl c = true := by
      unfold hasTtl
      simpa using httl
    have hexp : isExpired now w = true := by
      unfold isExpired
      rw [hee]
      simpa using hle
    rw [storeGet_expired hl hts hexp]

/-- Witness for C6 on the default configuration. -/
theorem ttl_expiry_witness :
    ((storeGet "k" 300001 (storeSet "k" (CacheEntry.value Marshalled.sentinel) 0 (mkCache {}))).1
        = none ∧
     lookupItem "k"
        (storeGet "k" 300001
          (storeSet "k" (CacheEntry.value Marshalled.sentinel) 0 (mkCache {}))).2.items = none ∧
     (storeHas "k" 300001 (storeSet "k" (CacheEntry.value Marshalled.sentinel) 0 (mkCache {}))).1
        = false ∧
     lookupItem "k"
        (storeHas "k" 300001
          (storeSet "k" (CacheEntry.value Marshalled.sentinel) 0 (mkCache {}))).2.items = none) ∧
    (storeGet "k" 10
      { options := defaultOptions,
        items := [("k", { value := CacheEntry.value Marshalled.sentinel, expiresAt := some 5 })] }).1
      = none :=
  ⟨ttl_expiry.1 (mkCache {}) "k" (CacheEntry.value Marshalled.sentinel) 0 300001
      (by decide) (by decide),
   ttl_expiry.2
      { options := defaultOptions,
        items := [("k", { value := CacheEntry.value Marshalled.sentinel, expiresAt := some 5 })] }
      "k" 10 5 { value := CacheEntry.value Marshalled.sentinel, expiresAt := some 5 }
      (by decide) rfl rfl (by decide)⟩

/-! ## Claim C4 -/

/-- Claim C4: capacity bound.  `set` leaves the store at no more than
`max` entries (for `max ≥ 0`); `get`, `has`, `delete` and `clear` never
grow the store past a bound it already satisfies; the reported size never
exceeds the raw entry count; with `max = 0` a `set` empties the store and
the other operations keep an empty store empty; and inserting `N`
distinct keys leaves exactly the most recently inserted `max` of them —
the reported size never exceeds `max` at any step and the
least-recently-touched entries are the ones evicted. -/
theorem capacity_bound :
    (∀ (c : LruCache) (key : String) (v : CacheEntry) (now : Int),
      0 ≤ c.options.max →
      ((storeSet key v now c).items.length : Int) ≤ c.options.max) ∧
    (∀ (c : LruCache) (key : String) (now : Int),
      ((c.items.length : Int) ≤ c.options.max) →
      (((storeGet key now c).2.items.length : Int) ≤ c.options.max ∧
       ((storeHas key now c).2.items.length : Int) ≤ c.options.max ∧
       ((storeDelete key c).2.items.length : Int) ≤ c.options.max ∧
       ((storeClear c).items.length : Int) ≤ c.options.max)) ∧
    (∀ (now : Int) (c : LruCache), ((storeSize now c).1 : Int) ≤ (c.items.length : Int)) ∧
    (∀ (c : LruCache) (key : String) (v : CacheEntry) (now : Int),
      c.options.max = 0 →
      (storeSet key v now c).items = [] ∧
      (c.items = [] →
        (storeGet key now c).2.items = [] ∧ (storeHas key now c).2.items = [] ∧
        (storeDelete key c).2.items = [] ∧ (storeClear c).items = [])) ∧
    (∀ (cfg : CacheConfig) (ps : List (String × CacheEntry)) (now : Int),
      (ps.map Prod.fst).Nodup → 1 ≤ (mergeDefaults cfg).max →
      (∀ j, ((storeSize now (setAll (ps.take j) now (mkCache cfg))).1 : Int)
          ≤ (mergeDefaults cfg).max) ∧
      (setAll ps now (mkCache cfg)).items.map Prod.fst =
        (ps.map Prod.fst).drop (ps.length - (mergeDefaults cfg).max.toNat)) := by
  refine ⟨?_, ?_, ?_, ?_, ?_⟩
  · intro c key v now h0
    exact storeSet_length h0
  · intro c key now hlen
    have h1 := storeGet_length_le key now c
    have h2 := storeHas_length_le key now c
    have h3 := storeDelete_length_le key c
    have h4 : (storeClear c).items.length = 0 := rfl
    exact ⟨by omega, by omega, by omega, by omega⟩
  · intro now c
    exact_mod_cast storeSize_le_length now c
  · intro c key v now h0
    refine ⟨storeSet_max_nonpos key v now (by omega), ?_⟩
    intro hempty
    have hlk : lookupItem key c.items = none := by
      rw [hempty]
      rfl
    refine ⟨?_, ?_, ?_, rfl⟩
    · rw [storeGet_of_lookup_none hlk]
      exact hempty
    · rw [storeHas_of_lookup_none hlk]
      exact hempty
    · show eraseItem key c.items = []
      rw [hempty]
      rfl
  · intro cfg ps now hnd hmax
    have hcomp2 : (Prod.fst ∘ fun p : String × CacheEntry =>
        (p.1, mkWrapper (mkCache cfg) p.2 now)) = Prod.fst := funext (fun p => rfl)
    constructor
    · intro j
      have hndj : ((ps.take j).map Prod.fst).Nodup := by
        rw [List.map_take]
        exact hnd.sublist (List.take_sublist _ _)
      have hje := setAll_fresh_items now (ps.take j) hndj hmax
      have hlen1 : (setAll (ps.take j) now (mkCache cfg)).items.length
          ≤ (mergeDefaults cfg).max.toNat := by
        rw [hje, List.length_drop, List.length_map]
        omega
      have hsz := storeSize_le_length now (setAll (ps.take j) now (mkCache cfg))
      omega
    · rw [setAll_fresh_items now ps hnd hmax]
      rw [List.map_drop, List.map_map, hcomp2]

/-- Witness for C4: a set on the default store respects the bound, and
inserting the three keys a, b, c into a two-entry store evicts exactly
the oldest key a. -/
theorem capacity_bound_witness :
    (((storeSet "a" (CacheEntry.value Marshalled.sentinel) 0 (mkCache {})).items.length : Int)
        ≤ (mkCache {}).options.max) ∧
    ((setAll [("a", CacheEntry.value Marshalled.sentinel),
        ("b", CacheEntry.value Marshalled.sentinel),
        ("c", CacheEntry.value Marshalled.sentinel)] 0
        (mkCache { max := some 2, ttl := none })).items.map Prod.fst = ["b", "c"]) ∧
    (((storeSize 0 (setAll ([("a", CacheEntry.value Marshalled.sentinel)].take 1) 0
        (mkCache { max := some 2, ttl := none }))).1 : Int)
      ≤ (mergeDefaults { max := some 2, ttl := none }).max) := by
  have h := capacity_bound
  refine ⟨h.1 (mkCache {}) "a" (CacheEntry.value Marshalled.sentinel) 0 (by decide), ?_, ?_⟩
  · have h5 := (h.2.2.2.2 { max := some 2, ttl := none }
      [("a", CacheEntry.value Marshalled.sentinel), ("b", CacheEntry.value Marshalled.sentinel),
       ("c", CacheEntry.value Marshalled.sentinel)] 0 (by decide) (by decide)).2
    exact h5.trans (by decide)
  · exact (h.2.2.2.2 { max := some 2, ttl := none }
      [("a", CacheEntry.value Marshalled.sentinel)] 0 (by decide) (by decide)).1 1

/-! ## Claim C8 -/

/-- Claim C8: `setup` builds a store whose unspecified fields default to
`max = 100` and `ttl = 300000`, migrates exactly the live entries of the
old store (so the new size equals their count `K` when `K ≤ max`), and
every migrated payload is retrievable by `get`; a cache hit never invokes
the underlying function. -/
theorem setup_migration (cfg : CacheConfig) (old : LruCache) (now : Int)
    (hnd : (old.items.map Prod.fst).Nodup)
    (hK : (((storeEntries now old).1.length : Nat) : Int) ≤ (mergeDefaults cfg).max) :
    (setup cfg now old).options = mergeDefaults cfg ∧
    (mergeDefaults { max := none, ttl := none }).max = 100 ∧
    (mergeDefaults { max := none, ttl := none }).ttl = 300000 ∧
    (storeSize now (setup cfg now old)).1 = (storeEntries now old).1.length ∧
    (∀ kv ∈ (storeEntries now old).1, (storeGet kv.1 now (setup cfg now old)).1 = some kv.2) ∧
    (∀ (f : List JsValue → Except JsValue JsValue) (fk : String) (args : List JsValue)
        (now2 : Int) (s : CallState) (w : CacheEntryWrapper),
      lookupItem (makeKey fk args) s.store.items = some w →
      (hasTtl s.store = true → isExpired now2 w = false) →
      (memoizedCall f fk args now2 s).2.calls = s.calls) := by
  have hopts : (setup cfg now old).options = mergeDefaults cfg := setAll_options _ _ _
  have hndl : ((storeEntries now old).1.map Prod.fst).Nodup :=
    List.Nodup.sublist (storeEntries_keys_sublist now old) hnd
  have hcomp : (Prod.fst ∘ fun p : String × CacheEntry =>
      (p.1, mkWrapper (mkCache cfg) p.2 now)) = Prod.fst := funext (fun p => rfl)
  by_cases hK0 : (storeEntries now old).1 = []
  · have hsetup : setup cfg now old = mkCache cfg := by
      unfold setup
      rw [hK0]
      rfl
    refine ⟨hopts, rfl, by decide, ?_, ?_, ?_⟩
    · rw [hsetup, hK0]
      unfold storeSize
      split
      · rfl
      · rfl
    · intro kv hm
      rw [hK0] at hm
      cases hm
    · intro f fk args now2 s w hl hlive
      exact (memoizedCall_hit now2 hl hlive).2.1
  · have hK1 : 1 ≤ (storeEntries now old).1.length :=
      List.length_pos.mpr hK0
    have hmax : 1 ≤ (mergeDefaults cfg).max := by omega
    have hitems : (setup cfg now old).items =
        (storeEntries now old).1.map
          (fun p => (p.1, mkWrapper (mkCache cfg) p.2 now)) := by
      unfold setup
      rw [setAll_fresh_items now (storeEntries now old).1 hndl hmax]
      rw [show (storeEntries now old).1.length - (mergeDefaults cfg).max.toNat = 0 from by omega]
      rw [List.drop_zero]
    have hall : ∀ kv ∈ (setup cfg now old).items, isExpired now kv.2 = false := by
      rw [hitems]
      intro kv hm
      rcases List.mem_map.mp hm with ⟨a, _, rfl⟩
      exact isExpired_mkWrapper_now _ _ _
    refine ⟨hopts, rfl, by decide, ?_, ?_, ?_⟩
    · unfold storeSize
      split
      · dsimp only
        rw [pruneExpired_eq_self hall, hitems, List.length_map]
      · rw [hitems, List.length_map]
    · intro kv hm
      have hndw : (((storeEntries now old).1.map
          (fun p => (p.1, mkWrapper (mkCache cfg) p.2 now))).map Prod.fst).Nodup := by
        rw [List.map_map, hcomp]
        exact hndl
      have hl : lookupItem kv.1 (setup cfg now old).items
          = some (mkWrapper (mkCache cfg) kv.2 now) := by
        rw [hitems]
        exact lookupItem_of_mem_nodup hndw (List.mem_map.mpr ⟨kv, hm, rfl⟩)
      have hget := storeGet_hit now hl (fun _ => isExpired_mkWrapper_now _ _ _)
      exact hget.1.trans (by rw [mkWrapper_value])
    · intro f fk args now2 s w hl hlive
      exact (memoizedCall_hit now2 hl hlive).2.1

/-- Witness for C8: migrating a one-entry unexpired store into a fresh
default store preserves the entry and the size. -/
theorem setup_migration_witness :
    (let old : LruCache :=
      { options := defaultOptions,
        items := [("k", { value := CacheEntry.value Marshalled.sentinel, expiresAt := some 200 })] };
     (storeSize 100 (setup {} 100 old)).1 = (storeEntries 100 old).1.length ∧
     (storeGet "k" 100 (setup {} 100 old)).1 = some (CacheEntry.value Marshalled.sentinel)) := by
  have h := setup_migration {}
    { options := defaultOptions,
      items := [("k", { value := CacheEntry.value Marshalled.sentinel, expiresAt := some 200 })] }
    100 (by decide) (by decide)
  exact ⟨h.2.2.2.1,
    h.2.2.2.2.1 ("k", CacheEntry.value Marshalled.sentinel) (by decide)⟩

/-! ## Claim C10 -/

/-- Claim C10: every entry of the store built by `setup` carries the fresh
expiry stamp `now + ttl` of the new configuration (when its TTL is
positive), regardless of how much lifetime the entry had remaining in the
old store — migration resets the expiry clock. -/
theorem setup_resets_expiry (cfg : CacheConfig) (old : LruCache) (now : Int)
    (ht : 0 < (mergeDefaults cfg).ttl) :
    ∀ kv ∈ (setup cfg now old).items,
      kv.2.expiresAt = some (now + (mergeDefaults cfg).ttl) := by
  have hQ : ∀ (c' : LruCache), c'.options = mergeDefaults cfg → ∀ v,
      (mkWrapper c' v now).expiresAt = some (now + (mergeDefaults cfg).ttl) := by
    intro c' hco v
    unfold mkWrapper hasTtl
    rw [hco]
    rw [if_pos (by simpa using ht)]
  intro kv hm
  exact setAll_forall (Q := fun w => w.expiresAt = some (now + (mergeDefaults cfg).ttl))
    (o := mergeDefaults cfg) hQ (storeEntries now old).1 (mkCache cfg) rfl
    (fun kv h => absurd h (List.not_mem_nil kv)) kv hm

/-- Witness for C10: an entry with 100 ms of lifetime left becomes fresh
for the full default TTL after reconfiguration at time 100. -/
theorem setup_resets_expiry_witness :
    (("k", ({ value := CacheEntry.value Marshalled.sentinel, expiresAt := some (300100 : Int) }
        : CacheEntryWrapper)) : String × CacheEntryWrapper).2.expiresAt
      = some (100 + (mergeDefaults {}).ttl) :=
  setup_resets_expiry {}
    { options := defaultOptions,
      items := [("k", { value := CacheEntry.value Marshalled.sentinel, expiresAt := some 200 })] }
    100 (by decide)
    ("k", { value := CacheEntry.value Marshalled.sentinel, expiresAt := some 300100 })
    (by decide)

end Kioku
